import Mathlib

/-!
Verification of the JSON project store of HydroDraw
(`src/backend/storage.py`, class `JSONStore`).

The store persists a list of project records in a single JSON file.
We model:
  * JSON values as the inductive `JValue`;
  * a Python `dict` (a project record) as an ordered association list
    `Record := List (String × JValue)` — Python dicts preserve insertion
    order and have unique keys, and `dict.get` is first-match lookup;
  * the collection file as `FileState`: absent, present-but-undecodable
    (`corrupt`), or decodable JSON holding a list of records (`valid`);
  * each method of `JSONStore` as a function from the file state (and the
    method arguments) to its return value paired with the new file state.
-/

set_option autoImplicit false

/-- A JSON value, as produced by Python's `json` module. -/
inductive JValue where
  | str : String → JValue
  | num : Int → JValue
  | bool : Bool → JValue
  | null : JValue
  | arr : List JValue → JValue
  | obj : List (String × JValue) → JValue

mutual

/-- Decidable structural (deep) equality of JSON values. -/
def JValue.decEq : (a b : JValue) → Decidable (a = b)
  | .str a, .str b =>
    if h : a = b then .isTrue (by rw [h])
    else .isFalse (fun hab => h (JValue.str.inj hab))
  | .num a, .num b =>
    if h : a = b then .isTrue (by rw [h])
    else .isFalse (fun hab => h (JValue.num.inj hab))
  | .bool a, .bool b =>
    if h : a = b then .isTrue (by rw [h])
    else .isFalse (fun hab => h (JValue.bool.inj hab))
  | .null, .null => .isTrue rfl
  | .arr a, .arr b =>
    match JValue.decEqList a b with
    | .isTrue h => .isTrue (by rw [h])
    | .isFalse h => .isFalse (fun hab => h (JValue.arr.inj hab))
  | .obj a, .obj b =>
    match JValue.decEqObj a b with
    | .isTrue h => .isTrue (by rw [h])
    | .isFalse h => .isFalse (fun hab => h (JValue.obj.inj hab))
  | .str _, .num _ => .isFalse (fun h => JValue.noConfusion h)
  | .str _, .bool _ => .isFalse (fun h => JValue.noConfusion h)
  | .str _, .null => .isFalse (fun h => JValue.noConfusion h)
  | .str _, .arr _ => .isFalse (fun h => JValue.noConfusion h)
  | .str _, .obj _ => .isFalse (fun h => JValue.noConfusion h)
  | .num _, .str _ => .isFalse (fun h => JValue.noConfusion h)
  | .num _, .bool _ => .isFalse (fun h => JValue.noConfusion h)
  | .num _, .null => .isFalse (fun h => JValue.noConfusion h)
  | .num _, .arr _ => .isFalse (fun h => JValue.noConfusion h)
  | .num _, .obj _ => .isFalse (fun h => JValue.noConfusion h)
  | .bool _, .str _ => .isFalse (fun h => JValue.noConfusion h)
  | .bool _, .num _ => .isFalse (fun h => JValue.noConfusion h)
  | .bool _, .null => .isFalse (fun h => JValue.noConfusion h)
  | .bool _, .arr _ => .isFalse (fun h => JValue.noConfusion h)
  | .bool _, .obj _ => .isFalse (fun h => JValue.noConfusion h)
  | .null, .str _ => .isFalse (fun h => JValue.noConfusion h)
  | .null, .num _ => .isFalse (fun h => JValue.noConfusion h)
  | .null, .bool _ => .isFalse (fun h => JValue.noConfusion h)
  | .null, .arr _ => .isFalse (fun h => JValue.noConfusion h)
  | .null, .obj _ => .isFalse (fun h => JValue.noConfusion h)
  | .arr _, .str _ => .isFalse (fun h => JValue.noConfusion h)
  | .arr _, .num _ => .isFalse (fun h => JValue.noConfusion h)
  | .arr _, .bool _ => .isFalse (fun h => JValue.noConfusion h)
  | .arr _, .null => .isFalse (fun h => JValue.noConfusion h)
  | .arr _, .obj _ => .isFalse (fun h => JValue.noConfusion h)
  | .obj _, .str _ => .isFalse (fun h => JValue.noConfusion h)
  | .obj _, .num _ => .isFalse (fun h => JValue.noConfusion h)
  | .obj _, .bool _ => .isFalse (fun h => JValue.noConfusion h)
  | .obj _, .null => .isFalse (fun h => JValue.noConfusion h)
  | .obj _, .arr _ => .isFalse (fun h => JValue.noConfusion h)

/-- Decidable equality of JSON arrays. -/
def JValue.decEqList : (a b : List JValue) → Decidable (a = b)
  | [], [] => .isTrue rfl
  | [], _ :: _ => .isFalse (fun h => List.noConfusion h)
  | _ :: _, [] => .isFalse (fun h => List.noConfusion h)
  | x :: xs, y :: ys =>
    match JValue.decEq x y with
    | .isFalse h1 => .isFalse (fun h => h1 (List.cons.inj h).1)
    | .isTrue h1 =>
      match JValue.decEqList xs ys with
      | .isTrue h2 => .isTrue (by rw [h1, h2])
      | .isFalse h2 => .isFalse (fun h => h2 (List.cons.inj h).2)

/-- Decidable equality of JSON objects (key-value pair lists). -/
def JValue.decEqObj : (a b : List (String × JValue)) → Decidable (a = b)
  | [], [] => .isTrue rfl
  | [], _ :: _ => .isFalse (fun h => List.noConfusion h)
  | _ :: _, [] => .isFalse (fun h => List.noConfusion h)
  | (k, v) :: xs, (k', v') :: ys =>
    if hk : k = k' then
      match JValue.decEq v v' with
      | .isFalse h1 =>
        .isFalse (fun h => h1 (congrArg Prod.snd (List.cons.inj h).1))
      | .isTrue h1 =>
        match JValue.decEqObj xs ys with
        | .isTrue h2 => .isTrue (by rw [hk, h1, h2])
        | .isFalse h2 => .isFalse (fun h => h2 (List.cons.inj h).2)
    else
      .isFalse (fun h => hk (congrArg Prod.fst (List.cons.inj h).1))

end

instance : DecidableEq JValue := JValue.decEq

/-- A project record: a Python dict with string keys, in insertion order. -/
abbrev Record := List (String × JValue)

/-- `dict.get k`: the value at the first occurrence of key `k`, if any.
(Python dicts have unique keys, so first-match lookup is dict lookup.) -/
def Record.get : Record → String → Option JValue
  | [], _ => none
  | (k, v) :: rest, key => if k = key then some v else Record.get rest key

/-- The test `p.get('id') == project_id` used by `get_project`,
`update_project` and `delete_project` (storage.py lines 43, 57, 68):
true exactly when the record stores the string `project_id` under `"id"`.
A missing `id` key gives Python `None == project_id`, i.e. `False`;
a non-string value under `"id"` also compares unequal to the string. -/
def idMatches (p : Record) (project_id : String) : Bool :=
  Record.get p "id" == some (JValue.str project_id)

/-- Replace the value of an entry of `p` by the value `u` holds for the
same key, if any (the in-place value update performed by `{**p, **u}` on
keys that `p` already has). -/
def overrideWith (u : Record) (kv : String × JValue) : String × JValue :=
  match Record.get u kv.1 with
  | some w => (kv.1, w)
  | none => kv

/-- The Python dict merge `{**p, **u}` (storage.py line 59): keys of `p`
keep their positions, with values overridden by `u` where `u` provides the
key; keys of `u` not present in `p` are appended in `u`'s order.
(Python dicts have unique keys, so within each of `p` and `u` the
first occurrence of a key is the only one.) -/
def mergeDicts (p u : Record) : Record :=
  p.map (overrideWith u) ++ u.filter fun kv => (Record.get p kv.1).isNone

/-- The state of the collection file `projects.json`. -/
inductive FileState where
  | absent : FileState
  | corrupt : FileState
  | valid : List Record → FileState
deriving DecidableEq

/-- Whether the collection file exists on disk (`self.projects_file.exists()`). -/
def FileState.fileExists : FileState → Bool
  | .absent => false
  | .corrupt => true
  | .valid _ => true

namespace JSONStore

/-- `JSONStore._read_json` (storage.py lines 27–32): parse the file,
returning `[]` on `JSONDecodeError` or `FileNotFoundError`. -/
def read_json : FileState → List Record
  | .absent => []
  | .corrupt => []
  | .valid l => l

/-- `JSONStore._write_json` (storage.py lines 34–36): serialize `data`
into the file, which afterwards holds exactly that list. -/
def write_json (data : List Record) : FileState :=
  FileState.valid data

/-- `JSONStore.get_projects` (storage.py lines 38–39). -/
def get_projects (fs : FileState) : List Record :=
  read_json fs

/-- The scanning loop of `get_project` (storage.py lines 42–45):
return the first record whose `id` matches, else `None`. -/
def find_project : List Record → String → Option Record
  | [], _ => none
  | p :: rest, project_id =>
    if idMatches p project_id then some p else find_project rest project_id

/-- `JSONStore.get_project` (storage.py lines 41–46). Reads only. -/
def get_project (fs : FileState) (project_id : String) : Option Record :=
  find_project (get_projects fs) project_id

/-- `JSONStore.create_project` (storage.py lines 48–52): append the record,
write the whole list back, echo the record. Returns (value, new file state). -/
def create_project (fs : FileState) (project_data : Record) : Record × FileState :=
  let projects := get_projects fs
  let projects := projects ++ [project_data]
  (project_data, write_json projects)

/-- The loop of `update_project` (storage.py lines 56–62): at the first
index whose record matches, merge `update_data` over it in place and stop.
Returns the updated list together with the merged record, or `none`. -/
def update_list : List Record → String → Record → Option (List Record × Record)
  | [], _, _ => none
  | p :: rest, project_id, update_data =>
    if idMatches p project_id then
      let updated_project := mergeDicts p update_data
      some (updated_project :: rest, updated_project)
    else
      match update_list rest project_id update_data with
      | some (rest', m) => some (p :: rest', m)
      | none => none

/-- `JSONStore.update_project` (storage.py lines 54–63): on a match, write
the updated list and return the merged record; otherwise return `None`
without writing. Returns (value, new file state). -/
def update_project (fs : FileState) (project_id : String) (update_data : Record) :
    Option Record × FileState :=
  match update_list (get_projects fs) project_id update_data with
  | some (projects', m) => (some m, write_json projects')
  | none => (none, fs)

/-- `JSONStore.delete_project` (storage.py lines 65–73): drop every record
whose `id` matches; write back and return `True` only if the length
shrank, else return `False` without writing. Returns (value, new state). -/
def delete_project (fs : FileState) (project_id : String) : Bool × FileState :=
  let projects := get_projects fs
  let remaining := projects.filter fun p => !(idMatches p project_id)
  if remaining.length < projects.length then
    (true, write_json remaining)
  else
    (false, fs)

/-- The file-initialization step of `JSONStore.__init__` (storage.py lines
24–25): if the collection file does not exist, write an empty list to it;
an existing file (even an undecodable one) is left untouched. -/
def init_store (fs : FileState) : FileState :=
  if !(FileState.fileExists fs) then write_json [] else fs

end JSONStore

/-! ## Helper lemmas -/

theorem record_get_append_none {ys : List (String × JValue)} {k : String} :
    ∀ {xs : List (String × JValue)}, Record.get xs k = none →
      Record.get (xs ++ ys) k = Record.get ys k := by
  intro xs
  induction xs with
  | nil => intro _; rfl
  | cons kv rest ih =>
    obtain ⟨a, v⟩ := kv
    intro h
    by_cases hak : a = k
    · simp [Record.get, hak] at h
    · simp only [List.cons_append, Record.get, if_neg hak] at h ⊢
      exact ih h

theorem record_get_append_some {ys : List (String × JValue)} {k : String} {v : JValue} :
    ∀ {xs : List (String × JValue)}, Record.get xs k = some v →
      Record.get (xs ++ ys) k = some v := by
  intro xs
  induction xs with
  | nil => intro h; exact absurd h (by simp [Record.get])
  | cons kv rest ih =>
    obtain ⟨a, w⟩ := kv
    intro h
    by_cases hak : a = k
    · simp only [Record.get, if_pos hak] at h
      simp only [List.cons_append, Record.get, if_pos hak]
      exact h
    · simp only [List.cons_append, Record.get, if_neg hak] at h ⊢
      exact ih h

theorem record_get_map_override_none {u : Record} {k : String} :
    ∀ {p : Record}, Record.get p k = none →
      Record.get (p.map (overrideWith u)) k = none := by
  intro p
  induction p with
  | nil => intro _; rfl
  | cons kv rest ih =>
    obtain ⟨a, v⟩ := kv
    intro h
    by_cases hak : a = k
    · simp [Record.get, hak] at h
    · simp only [Record.get, if_neg hak] at h
      cases hu : Record.get u a <;>
        simp only [List.map_cons, overrideWith, hu, Record.get, if_neg hak] <;>
        exact ih h

theorem record_get_map_override_some_some {u : Record} {k : String} {v w : JValue} :
    ∀ {p : Record}, Record.get p k = some v → Record.get u k = some w →
      Record.get (p.map (overrideWith u)) k = some w := by
  intro p
  induction p with
  | nil => intro h _; exact absurd h (by simp [Record.get])
  | cons kv rest ih =>
    obtain ⟨a, v'⟩ := kv
    intro h hu
    by_cases hak : a = k
    · subst hak
      simp [List.map_cons, overrideWith, hu, Record.get]
    · simp only [Record.get, if_neg hak] at h
      cases hu' : Record.get u a <;>
        simp only [List.map_cons, overrideWith, hu', Record.get, if_neg hak] <;>
        exact ih h hu

theorem record_get_map_override_some_none {u : Record} {k : String} {v : JValue} :
    ∀ {p : Record}, Record.get p k = some v → Record.get u k = none →
      Record.get (p.map (overrideWith u)) k = some v := by
  intro p
  induction p with
  | nil => intro h _; exact absurd h (by simp [Record.get])
  | cons kv rest ih =>
    obtain ⟨a, v'⟩ := kv
    intro h hu
    by_cases hak : a = k
    · subst hak
      simp only [Record.get, if_pos rfl] at h
      simp only [List.map_cons, overrideWith, hu, Record.get, if_pos rfl]
      exact h
    · simp only [Record.get, if_neg hak] at h
      cases hu' : Record.get u a <;>
        simp only [List.map_cons, overrideWith, hu', Record.get, if_neg hak] <;>
        exact ih h hu

theorem record_get_filter_of_none {p : Record} {k : String}
    (hp : Record.get p k = none) :
    ∀ (u : Record),
      Record.get (u.filter fun kv => (Record.get p kv.1).isNone) k =
        Record.get u k := by
  intro u
  induction u with
  | nil => rfl
  | cons kv rest ih =>
    obtain ⟨a, w⟩ := kv
    by_cases hak : a = k
    · subst hak
      simp [List.filter_cons, hp, Record.get, ih]
    · cases hfa : (Record.get p a).isNone <;>
        simp [List.filter_cons, hfa, Record.get, hak, ih]

theorem record_get_filter_of_some {p : Record} {k : String} {v : JValue}
    (hp : Record.get p k = some v) :
    ∀ (u : Record),
      Record.get (u.filter fun kv => (Record.get p kv.1).isNone) k = none := by
  intro u
  induction u with
  | nil => rfl
  | cons kv rest ih =>
    obtain ⟨a, w⟩ := kv
    by_cases hak : a = k
    · subst hak
      simp [List.filter_cons, hp, ih]
    · cases hfa : (Record.get p a).isNone <;>
        simp [List.filter_cons, hfa, Record.get, hak, ih]

/-- A field provided by `update_data` overwrites the prior value. -/
theorem mergeDicts_get_of_some {p u : Record} {k : String} {w : JValue}
    (h : Record.get u k = some w) :
    Record.get (mergeDicts p u) k = some w := by
  unfold mergeDicts
  cases hp : Record.get p k with
  | none =>
    rw [record_get_append_none (record_get_map_override_none hp),
        record_get_filter_of_none hp u, h]
  | some v =>
    exact record_get_append_some (record_get_map_override_some_some hp h)

/-- A field not provided by `update_data` keeps its prior value. -/
theorem mergeDicts_get_of_none {p u : Record} {k : String}
    (h : Record.get u k = none) :
    Record.get (mergeDicts p u) k = Record.get p k := by
  unfold mergeDicts
  cases hp : Record.get p k with
  | none =>
    rw [record_get_append_none (record_get_map_override_none hp),
        record_get_filter_of_none hp u, h]
  | some v =>
    rw [record_get_append_some (record_get_map_override_some_none hp h)]

theorem find_project_not_found {project_id : String} :
    ∀ {l : List Record}, (∀ p ∈ l, idMatches p project_id = false) →
      JSONStore.find_project l project_id = none := by
  intro l
  induction l with
  | nil => intro _; rfl
  | cons p rest ih =>
    intro h
    have hp : idMatches p project_id = false := h p (List.mem_cons_self p rest)
    simp [JSONStore.find_project, hp,
      ih fun q hq => h q (List.mem_cons_of_mem p hq)]

theorem find_project_append {project_id : String} {ys : List Record} :
    ∀ {xs : List Record}, (∀ p ∈ xs, idMatches p project_id = false) →
      JSONStore.find_project (xs ++ ys) project_id =
        JSONStore.find_project ys project_id := by
  intro xs
  induction xs with
  | nil => intro _; rfl
  | cons p rest ih =>
    intro h
    have hp : idMatches p project_id = false := h p (List.mem_cons_self p rest)
    simp [JSONStore.find_project, hp,
      ih fun q hq => h q (List.mem_cons_of_mem p hq)]

theorem update_list_not_found {project_id : String} {update_data : Record} :
    ∀ {l : List Record}, (∀ p ∈ l, idMatches p project_id = false) →
      JSONStore.update_list l project_id update_data = none := by
  intro l
  induction l with
  | nil => intro _; rfl
  | cons p rest ih =>
    intro h
    have hp : idMatches p project_id = false := h p (List.mem_cons_self p rest)
    simp [JSONStore.update_list, hp,
      ih fun q hq => h q (List.mem_cons_of_mem p hq)]

theorem update_list_found {project_id : String} {update_data : Record} {p : Record}
    (hp : idMatches p project_id = true) :
    ∀ (l1 l2 : List Record), (∀ q ∈ l1, idMatches q project_id = false) →
      JSONStore.update_list (l1 ++ p :: l2) project_id update_data =
        some (l1 ++ mergeDicts p update_data :: l2, mergeDicts p update_data) := by
  intro l1
  induction l1 with
  | nil => intro l2 _; simp [JSONStore.update_list, hp]
  | cons q rest ih =>
    intro l2 h
    have hq : idMatches q project_id = false := h q (List.mem_cons_self q rest)
    simp [JSONStore.update_list, hq,
      ih l2 fun r hr => h r (List.mem_cons_of_mem q hr)]

theorem update_list_preserves {project_id : String} {update_data : Record} :
    ∀ {l l' : List Record} {m : Record},
      JSONStore.update_list l project_id update_data = some (l', m) →
      ∀ (j : Nat) (r : Record), l[j]? = some r →
        idMatches r project_id = false → l'[j]? = some r := by
  intro l
  induction l with
  | nil => intro l' m h; simp [JSONStore.update_list] at h
  | cons p rest ih =>
    intro l' m h j r hj hr
    by_cases hp : idMatches p project_id
    · simp only [JSONStore.update_list, if_pos hp, Option.some.injEq,
        Prod.mk.injEq] at h
      cases j with
      | zero =>
        simp only [List.getElem?_cons_zero, Option.some.injEq] at hj
        rw [hj] at hp
        exact absurd hp (by rw [hr]; exact Bool.false_ne_true)
      | succ j' =>
        rw [← h.1]
        simpa using hj
    · cases hrest : JSONStore.update_list rest project_id update_data with
      | none => simp [JSONStore.update_list, hp, hrest] at h
      | some pr =>
        obtain ⟨rest', m'⟩ := pr
        simp only [JSONStore.update_list, if_neg hp, hrest, Option.some.injEq,
          Prod.mk.injEq] at h
        cases j with
        | zero =>
          rw [← h.1]
          simpa using hj
        | succ j' =>
          rw [← h.1]
          rw [List.getElem?_cons_succ]
          exact ih hrest j' r (by simpa using hj) hr

theorem length_filter_lt_iff {α : Type} (f : α → Bool) :
    ∀ (l : List α), ((l.filter f).length < l.length ↔ ∃ p ∈ l, f p = false) := by
  intro l
  induction l with
  | nil => simp
  | cons a rest ih =>
    cases ha : f a with
    | true =>
      simp only [List.filter_cons, ha, if_pos, List.length_cons,
        Nat.succ_lt_succ_iff, ih, List.mem_cons]
      constructor
      · rintro ⟨p, hpmem, hpf⟩
        exact ⟨p, Or.inr hpmem, hpf⟩
      · rintro ⟨p, hpmem, hpf⟩
        cases hpmem with
        | inl hpa =>
          rw [hpa] at hpf
          exact absurd ha (by rw [hpf]; exact Bool.false_ne_true)
        | inr hpmem => exact ⟨p, hpmem, hpf⟩
    | false =>
      simp only [List.filter_cons, ha, List.length_cons]
      exact iff_of_true (Nat.lt_succ_of_le (List.length_filter_le f rest))
        ⟨a, List.mem_cons_self a rest, ha⟩

theorem getElem?_append_cons_ne {α : Type} (a b : α) :
    ∀ (l1 l2 : List α) (j : Nat), j ≠ l1.length →
      (l1 ++ a :: l2)[j]? = (l1 ++ b :: l2)[j]? := by
  intro l1
  induction l1 with
  | nil =>
    intro l2 j hj
    cases j with
    | zero => exact absurd rfl hj
    | succ j' => simp
  | cons x rest ih =>
    intro l2 j hj
    cases j with
    | zero => simp
    | succ j' =>
      simp only [List.cons_append, List.getElem?_cons_succ]
      exact ih l2 j' fun h => hj (by simp [h])

/-! ## Concrete fixtures used by witnesses and counterexamples -/

def sampleP1 : Record := [("id", JValue.str "p1"), ("name", JValue.str "A"), ("x", JValue.num 1)]

def sampleP2 : Record := [("id", JValue.str "p2"), ("name", JValue.str "B"), ("y", JValue.num 2)]

def sampleP3 : Record := [("id", JValue.str "p3"), ("name", JValue.str "C")]

def sampleU : Record := [("name", JValue.str "B2")]

def sampleNoId : Record := [("name", JValue.str "anon")]

def dupOld : Record := [("id", JValue.str "p1"), ("x", JValue.num 1)]

def dupNew : Record := [("id", JValue.str "p1"), ("x", JValue.num 2)]

/-! ## Claims -/

/-- C1 counterexample: the round-trip claim fails as stated when a record
with the same `id` is already stored. Storing `dupNew` over a store that
already holds `dupOld` (same `id "p1"`, different `x`) and then reading
`"p1"` returns the old record, which is not field-for-field equal to the
record that was stored. -/
theorem C1_counterexample :
    Record.get dupNew "id" = some (JValue.str "p1") ∧
    (JSONStore.create_project (FileState.valid [dupOld]) dupNew).1 = dupNew ∧
    JSONStore.get_project
        (JSONStore.create_project (FileState.valid [dupOld]) dupNew).2 "p1" =
      some dupOld ∧
    dupOld ≠ dupNew := by decide

/-- C1 (amended): for any record `r` whose `id` field holds the string
`project_id`, if no already-stored record carries that id, then after
`create_project r` a `get_project project_id` returns exactly the stored
record, field for field. -/
theorem C1_roundtrip (fs : FileState) (r : Record) (project_id : String)
    (hid : Record.get r "id" = some (JValue.str project_id))
    (hfresh : ∀ p ∈ JSONStore.get_projects fs, idMatches p project_id = false) :
    JSONStore.get_project (JSONStore.create_project fs r).2 project_id = some r := by
  have hr : idMatches r project_id = true := by
    simp [idMatches, hid]
  unfold JSONStore.get_project
  have hlist : JSONStore.get_projects (JSONStore.create_project fs r).2 =
      JSONStore.get_projects fs ++ [r] := rfl
  rw [hlist, find_project_append hfresh]
  simp [JSONStore.find_project, hr]

/-- C1 witness at a concrete store: creating `sampleP2` over a store
holding only `sampleP1` and reading back id `"p2"` yields `sampleP2`. -/
theorem C1_witness :
    JSONStore.get_project
        (JSONStore.create_project (FileState.valid [sampleP1]) sampleP2).2 "p2" =
      some sampleP2 :=
  C1_roundtrip (FileState.valid [sampleP1]) sampleP2 "p2" (by decide) (by decide)

/-- C2: if the collection file is missing, or exists but its contents fail
to decode as JSON, `get_projects` (the `list()` read path) returns the
empty sequence instead of propagating an error. -/
theorem C2_list_empty_on_decode_failure (fs : FileState)
    (h : fs = FileState.absent ∨ fs = FileState.corrupt) :
    JSONStore.get_projects fs = [] := by
  rcases h with h | h <;> rw [h] <;> rfl

/-- C2 witness: both decode-failure states evaluate to the empty list. -/
theorem C2_witness :
    (FileState.absent = FileState.absent ∨ FileState.absent = FileState.corrupt) ∧
    JSONStore.get_projects FileState.absent = [] ∧
    (FileState.corrupt = FileState.absent ∨ FileState.corrupt = FileState.corrupt) ∧
    JSONStore.get_projects FileState.corrupt = [] :=
  ⟨Or.inl rfl, C2_list_empty_on_decode_failure FileState.absent (Or.inl rfl),
   Or.inr rfl, C2_list_empty_on_decode_failure FileState.corrupt (Or.inr rfl)⟩

/-- C3: when the stored sequence splits as `l1 ++ p :: l2` with `p` the
first record matching `project_id`, `update_project` returns the merge of
`update_data` into `p` and writes back the sequence with the merged record
at `p`'s original position; the merge is field-by-field: every field
provided by `update_data` overwrites the prior value, every field absent
from `update_data` keeps its prior value. -/
theorem C3_update_merges (fs : FileState) (project_id : String) (update_data : Record)
    (l1 l2 : List Record) (p : Record)
    (hsplit : JSONStore.get_projects fs = l1 ++ p :: l2)
    (hno : ∀ q ∈ l1, idMatches q project_id = false)
    (hp : idMatches p project_id = true) :
    JSONStore.update_project fs project_id update_data =
        (some (mergeDicts p update_data),
         FileState.valid (l1 ++ mergeDicts p update_data :: l2)) ∧
    (∀ (k : String) (w : JValue), Record.get update_data k = some w →
        Record.get (mergeDicts p update_data) k = some w) ∧
    (∀ k : String, Record.get update_data k = none →
        Record.get (mergeDicts p update_data) k = Record.get p k) := by
  refine ⟨?_, fun k w h => mergeDicts_get_of_some h,
    fun k h => mergeDicts_get_of_none h⟩
  unfold JSONStore.update_project
  rw [hsplit, update_list_found hp l1 l2 hno]
  rfl

/-- C3 witness: updating `"p2"` with `sampleU` in a concrete two-record
store merges `sampleU` over `sampleP2` in place: `name` is overwritten,
`y` survives. -/
theorem C3_witness :
    JSONStore.update_project (FileState.valid [sampleP1, sampleP2]) "p2" sampleU =
        (some (mergeDicts sampleP2 sampleU),
         FileState.valid [sampleP1, mergeDicts sampleP2 sampleU]) ∧
    Record.get (mergeDicts sampleP2 sampleU) "name" = some (JValue.str "B2") ∧
    Record.get (mergeDicts sampleP2 sampleU) "y" = some (JValue.num 2) := by
  have h := C3_update_merges (FileState.valid [sampleP1, sampleP2]) "p2" sampleU
      [sampleP1] [] sampleP2 rfl (by decide) (by decide)
  refine ⟨h.1, h.2.1 "name" (JValue.str "B2") (by decide), ?_⟩
  rw [h.2.2 "y" (by decide)]
  decide

/-- C4: `delete_project` removes exactly the records whose `id` matches:
it returns `true` precisely when some stored record matches; the resulting
stored sequence is the prior sequence with every matching record filtered
out (so a non-matching call leaves the sequence unchanged); and when
nothing matched the file state is untouched (no write happens). -/
theorem C4_delete_exact (fs : FileState) (project_id : String) :
    ((JSONStore.delete_project fs project_id).1 = true ↔
        ∃ p ∈ JSONStore.get_projects fs, idMatches p project_id = true) ∧
    JSONStore.get_projects (JSONStore.delete_project fs project_id).2 =
        (JSONStore.get_projects fs).filter (fun p => !(idMatches p project_id)) ∧
    ((JSONStore.delete_project fs project_id).1 = false →
        (JSONStore.delete_project fs project_id).2 = fs) := by
  have key := length_filter_lt_iff (fun p => !(idMatches p project_id))
      (JSONStore.get_projects fs)
  by_cases hlt : ((JSONStore.get_projects fs).filter
      (fun p => !(idMatches p project_id))).length < (JSONStore.get_projects fs).length
  · have hd : JSONStore.delete_project fs project_id =
        (true, JSONStore.write_json ((JSONStore.get_projects fs).filter
          (fun p => !(idMatches p project_id)))) := by
      simp [JSONStore.delete_project, hlt]
    refine ⟨?_, ?_, ?_⟩
    · obtain ⟨p, hmem, hfalse⟩ := key.mp hlt
      exact iff_of_true (by rw [hd]) ⟨p, hmem, by simpa using hfalse⟩
    · rw [hd]
      rfl
    · intro h
      rw [hd] at h
      simp at h
  · have hd : JSONStore.delete_project fs project_id = (false, fs) := by
      simp [JSONStore.delete_project, hlt]
    refine ⟨?_, ?_, ?_⟩
    · refine iff_of_false (by rw [hd]; simp) ?_
      rintro ⟨p, hmem, htrue⟩
      exact hlt (key.mpr ⟨p, hmem, by simp [htrue]⟩)
    · rw [hd]
      have hall : ∀ p ∈ JSONStore.get_projects fs,
          (!(idMatches p project_id)) = true := by
        intro p hmem
        by_contra hne
        exact hlt (key.mpr ⟨p, hmem, by simpa using hne⟩)
      exact (List.filter_eq_self.mpr hall).symm
    · intro _
      rw [hd]

/-- C4 witness: deleting `"p2"` from `[p1, p2, p3]` returns true and
leaves `[p1, p3]`; deleting a missing id returns false and performs no
write. -/
theorem C4_witness :
    (JSONStore.delete_project (FileState.valid [sampleP1, sampleP2, sampleP3]) "p2").1 =
      true ∧
    JSONStore.get_projects
        (JSONStore.delete_project (FileState.valid [sampleP1, sampleP2, sampleP3]) "p2").2 =
      [sampleP1, sampleP3] ∧
    (JSONStore.delete_project (FileState.valid [sampleP1, sampleP3]) "zz").1 = false ∧
    (JSONStore.delete_project (FileState.valid [sampleP1, sampleP3]) "zz").2 =
      FileState.valid [sampleP1, sampleP3] := by
  have h1 := C4_delete_exact (FileState.valid [sampleP1, sampleP2, sampleP3]) "p2"
  have h2 := C4_delete_exact (FileState.valid [sampleP1, sampleP3]) "zz"
  have hfalse : (JSONStore.delete_project (FileState.valid [sampleP1, sampleP3]) "zz").1 =
      false :=
    Bool.eq_false_iff.mpr fun htrue => absurd (h2.1.mp htrue) (by decide)
  refine ⟨h1.1.mpr ⟨sampleP2, by decide, by decide⟩, ?_, hfalse, h2.2.2 hfalse⟩
  rw [h1.2.1]
  decide

/-- C5: `create_project` appends the given record at the end of the stored
sequence, leaving every prior record at its position; it writes the whole
sequence back; it performs no duplicate-id check, so the number of stored
records carrying any given id grows by one exactly when the new record
carries that id; and it returns the given record unmodified. -/
theorem C5_create_appends (fs : FileState) (r : Record) :
    JSONStore.create_project fs r =
        (r, FileState.valid (JSONStore.get_projects fs ++ [r])) ∧
    (∀ j : Nat, j < (JSONStore.get_projects fs).length →
        (JSONStore.get_projects (JSONStore.create_project fs r).2)[j]? =
          (JSONStore.get_projects fs)[j]?) ∧
    (∀ project_id : String,
        ((JSONStore.get_projects (JSONStore.create_project fs r).2).countP
            fun p => idMatches p project_id) =
          ((JSONStore.get_projects fs).countP fun p => idMatches p project_id) +
            (if idMatches r project_id then 1 else 0)) := by
  refine ⟨rfl, ?_, ?_⟩
  · intro j hj
    show (JSONStore.get_projects fs ++ [r])[j]? = (JSONStore.get_projects fs)[j]?
    rw [List.getElem?_append]
    rw [if_pos hj]
  · intro project_id
    show ((JSONStore.get_projects fs ++ [r]).countP fun p => idMatches p project_id) = _
    rw [List.countP_append]
    simp [List.countP_cons]

/-- C5 witness: creating a record with an id already stored yields two
records sharing that id, with the old record still at position 0. -/
theorem C5_witness :
    JSONStore.create_project (FileState.valid [dupOld]) dupNew =
        (dupNew, FileState.valid [dupOld, dupNew]) ∧
    (JSONStore.get_projects
        (JSONStore.create_project (FileState.valid [dupOld]) dupNew).2)[0]? =
      some dupOld ∧
    ((JSONStore.get_projects
        (JSONStore.create_project (FileState.valid [dupOld]) dupNew).2).countP
      fun p => idMatches p "p1") = 2 := by
  have h := C5_create_appends (FileState.valid [dupOld]) dupNew
  refine ⟨h.1, ?_, ?_⟩
  · rw [h.2.1 0 (by decide)]
    decide
  · rw [h.2.2 "p1"]
    decide

/-- C6: updating one record leaves every other record unchanged and at its
original position: the sequence after `update_project` has the same length
as before, and agrees with the prior sequence at every index other than
the index of the (first) matched record. -/
theorem C6_update_frame (fs : FileState) (project_id : String) (update_data : Record)
    (l1 l2 : List Record) (p : Record)
    (hsplit : JSONStore.get_projects fs = l1 ++ p :: l2)
    (hno : ∀ q ∈ l1, idMatches q project_id = false)
    (hp : idMatches p project_id = true) :
    (JSONStore.get_projects
        (JSONStore.update_project fs project_id update_data).2).length =
      (JSONStore.get_projects fs).length ∧
    ∀ j : Nat, j ≠ l1.length →
      (JSONStore.get_projects (JSONStore.update_project fs project_id update_data).2)[j]? =
        (JSONStore.get_projects fs)[j]? := by
  have hupd : JSONStore.update_project fs project_id update_data =
      (some (mergeDicts p update_data),
       JSONStore.write_json (l1 ++ mergeDicts p update_data :: l2)) := by
    unfold JSONStore.update_project
    rw [hsplit, update_list_found hp l1 l2 hno]
  rw [hupd, hsplit]
  constructor
  · show (l1 ++ mergeDicts p update_data :: l2).length = (l1 ++ p :: l2).length
    simp
  · intro j hj
    show (l1 ++ mergeDicts p update_data :: l2)[j]? = (l1 ++ p :: l2)[j]?
    exact getElem?_append_cons_ne (mergeDicts p update_data) p l1 l2 j hj

/-- C6 witness: updating `"p2"` in `[p1, p2, p3]` keeps length 3 and keeps
`p1` at index 0 and `p3` at index 2. -/
theorem C6_witness :
    (JSONStore.get_projects
        (JSONStore.update_project (FileState.valid [sampleP1, sampleP2, sampleP3])
          "p2" sampleU).2).length = 3 ∧
    (JSONStore.get_projects
        (JSONStore.update_project (FileState.valid [sampleP1, sampleP2, sampleP3])
          "p2" sampleU).2)[0]? = some sampleP1 ∧
    (JSONStore.get_projects
        (JSONStore.update_project (FileState.valid [sampleP1, sampleP2, sampleP3])
          "p2" sampleU).2)[2]? = some sampleP3 := by
  have h := C6_update_frame (FileState.valid [sampleP1, sampleP2, sampleP3]) "p2"
      sampleU [sampleP1] [sampleP3] sampleP2 rfl (by decide) (by decide)
  refine ⟨by rw [h.1]; decide, ?_, ?_⟩
  · rw [h.2 0 (by decide)]
    decide
  · rw [h.2 2 (by decide)]
    decide

/-- C7: when no stored record matches `project_id`, `get_project` returns
`None` and `update_project` returns `None` while leaving the file state
exactly as it was (no write happens on the not-found path). -/
theorem C7_not_found (fs : FileState) (project_id : String) (update_data : Record)
    (h : ∀ p ∈ JSONStore.get_projects fs, idMatches p project_id = false) :
    JSONStore.get_project fs project_id = none ∧
    JSONStore.update_project fs project_id update_data = (none, fs) := by
  constructor
  · exact find_project_not_found h
  · unfold JSONStore.update_project
    rw [update_list_not_found h]

/-- C7 witness: looking up or updating the unused id `"zz"` in a concrete
one-record store returns `None` and leaves the file untouched. -/
theorem C7_witness :
    idMatches sampleP1 "zz" = false ∧
    JSONStore.get_project (FileState.valid [sampleP1]) "zz" = none ∧
    JSONStore.update_project (FileState.valid [sampleP1]) "zz" sampleU =
      (none, FileState.valid [sampleP1]) := by
  have h := C7_not_found (FileState.valid [sampleP1]) "zz" sampleU (by decide)
  exact ⟨by decide, h.1, h.2⟩

/-- C8: initializing the store when the collection file is absent writes
the empty sequence to it, after which the file exists and `get_projects`
returns the empty sequence; when the file already exists (even with
undecodable contents) initialization leaves it untouched. -/
theorem C8_init_store (fs : FileState) :
    (FileState.fileExists fs = false →
        JSONStore.init_store fs = FileState.valid [] ∧
        FileState.fileExists (JSONStore.init_store fs) = true ∧
        JSONStore.get_projects (JSONStore.init_store fs) = []) ∧
    (FileState.fileExists fs = true → JSONStore.init_store fs = fs) := by
  constructor
  · intro h
    have hinit : JSONStore.init_store fs = FileState.valid [] := by
      simp [JSONStore.init_store, h, JSONStore.write_json]
    exact ⟨hinit, by rw [hinit]; rfl, by rw [hinit]; rfl⟩
  · intro h
    simp [JSONStore.init_store, h]

/-- C8 witness: initializing over a missing file creates the empty
collection; initializing over an existing (corrupt) file changes nothing. -/
theorem C8_witness :
    FileState.fileExists FileState.absent = false ∧
    JSONStore.init_store FileState.absent = FileState.valid [] ∧
    JSONStore.get_projects (JSONStore.init_store FileState.absent) = [] ∧
    FileState.fileExists FileState.corrupt = true ∧
    JSONStore.init_store FileState.corrupt = FileState.corrupt := by
  have ha := C8_init_store FileState.absent
  have hc := C8_init_store FileState.corrupt
  exact ⟨rfl, (ha.1 rfl).1, (ha.1 rfl).2.2, rfl, hc.2 rfl⟩

/-- C9: on a store whose collection file holds undecodable contents,
`create_project r` succeeds (echoing `r`) and persists exactly `[r]`: the
decode-failure fallback to the empty sequence is made durable by the next
write, replacing the file's prior corrupt contents. -/
theorem C9_create_after_corrupt (r : Record) :
    JSONStore.create_project FileState.corrupt r = (r, FileState.valid [r]) ∧
    JSONStore.get_projects (JSONStore.create_project FileState.corrupt r).2 = [r] :=
  ⟨rfl, rfl⟩

/-- C10 counterexample: a record with no `id` field does survive every
delete, but not at its original position. Here `sampleNoId` sits at index
1; deleting the (matching) record before it moves it to index 0, so index
1 no longer holds it. -/
theorem C10_counterexample :
    Record.get sampleNoId "id" = none ∧
    (JSONStore.get_projects (FileState.valid [dupOld, sampleNoId]))[1]? =
      some sampleNoId ∧
    JSONStore.get_projects
        (JSONStore.delete_project (FileState.valid [dupOld, sampleNoId]) "p1").2 =
      [sampleNoId] ∧
    (JSONStore.get_projects
        (JSONStore.delete_project (FileState.valid [dupOld, sampleNoId]) "p1").2)[1]? ≠
      some sampleNoId := by decide

/-- C10 (amended): a stored record `q` with no `id` field is never matched
for any id, so no operation raises on it; every `update_project` preserves
it unchanged at its exact index; every `delete_project` preserves it
unchanged and in the same relative order among the remaining records
(its absolute index can only shift down when matching records before it
are removed). -/
theorem C10_no_id_record (q : Record) (hq : Record.get q "id" = none) :
    (∀ project_id : String, idMatches q project_id = false) ∧
    (∀ (fs : FileState) (project_id : String) (update_data : Record) (j : Nat),
        (JSONStore.get_projects fs)[j]? = some q →
        (JSONStore.get_projects
            (JSONStore.update_project fs project_id update_data).2)[j]? = some q) ∧
    (∀ (fs : FileState) (project_id : String),
        q ∈ JSONStore.get_projects fs →
          q ∈ JSONStore.get_projects (JSONStore.delete_project fs project_id).2 ∧
          List.Sublist (JSONStore.get_projects (JSONStore.delete_project fs project_id).2)
            (JSONStore.get_projects fs)) := by
  have hqm : ∀ project_id : String, idMatches q project_id = false := by
    intro project_id
    unfold idMatches
    rw [hq]
    rfl
  refine ⟨hqm, ?_, ?_⟩
  · intro fs project_id update_data j hj
    cases hupd : JSONStore.update_list (JSONStore.get_projects fs)
        project_id update_data with
    | none =>
      have heq : JSONStore.update_project fs project_id update_data = (none, fs) := by
        unfold JSONStore.update_project
        rw [hupd]
      rw [heq]
      exact hj
    | some pr =>
      obtain ⟨l', m⟩ := pr
      have heq : JSONStore.update_project fs project_id update_data =
          (some m, JSONStore.write_json l') := by
        unfold JSONStore.update_project
        rw [hupd]
      rw [heq]
      exact update_list_preserves hupd j q hj (hqm project_id)
  · intro fs project_id hmem
    by_cases hlt : ((JSONStore.get_projects fs).filter
        (fun p => !(idMatches p project_id))).length < (JSONStore.get_projects fs).length
    · have hd : JSONStore.delete_project fs project_id =
          (true, JSONStore.write_json ((JSONStore.get_projects fs).filter
            (fun p => !(idMatches p project_id)))) := by
        simp [JSONStore.delete_project, hlt]
      rw [hd]
      constructor
      · exact List.mem_filter.mpr ⟨hmem, by simp [hqm project_id]⟩
      · exact List.filter_sublist _
    · have hd : JSONStore.delete_project fs project_id = (false, fs) := by
        simp [JSONStore.delete_project, hlt]
      rw [hd]
      exact ⟨hmem, List.Sublist.refl _⟩

/-- C10 witness: the id-less record `sampleNoId` never matches, survives a
concrete update at its exact index 0, and survives a concrete delete that
removes the record stored before it. -/
theorem C10_witness :
    Record.get sampleNoId "id" = none ∧
    idMatches sampleNoId "p1" = false ∧
    (JSONStore.get_projects
        (JSONStore.update_project (FileState.valid [sampleNoId, sampleP1])
          "p1" sampleU).2)[0]? = some sampleNoId ∧
    sampleNoId ∈ JSONStore.get_projects
        (JSONStore.delete_project (FileState.valid [dupOld, sampleNoId]) "p1").2 := by
  have h := C10_no_id_record sampleNoId (by decide)
  exact ⟨by decide, h.1 "p1",
    h.2.1 (FileState.valid [sampleNoId, sampleP1]) "p1" sampleU 0 (by decide),
    (h.2.2 (FileState.valid [dupOld, sampleNoId]) "p1" (by decide)).1⟩
